import Mathlib

/-!
Shallow embedding of the `service-logging` Rust crate (src/lib.rs, src/logging.rs,
src/time.rs) and proofs about it.  Machine integers are modelled as `Nat` with
explicit `% 2 ^ 64` where a truncating cast occurs; fallible operations return
`Except`; the system clock and the HTTP transport are explicit parameters.
-/

namespace ServiceLogging

/-- Severity level, from `logging.rs` (`enum Severity`, repr u8, tags 1..6). -/
inductive Severity where
  | Debug
  | Verbose
  | Info
  | Warning
  | Error
  | Critical
  deriving DecidableEq, Repr

/-- The `repr(u8)` integer tag of each severity (`Debug = 1` .. `Critical = 6`);
this is what `Serialize_repr` emits on the wire. -/
def Severity.tag : Severity → Nat
  | .Debug => 1
  | .Verbose => 2
  | .Info => 3
  | .Warning => 4
  | .Error => 5
  | .Critical => 6

/-- Embedding of `impl Default for Severity`: returns `Severity::Info`. -/
def Severity.default : Severity := Severity.Info

/-- Embedding of `impl FromStr for Severity`: matches exactly the lowercase, Capitalized and
UPPERCASE spellings of the six names; anything else is
`Err("Invalid severity: <input>")`. -/
def Severity.from_str (s : String) : Except String Severity :=
  if s = "debug" ∨ s = "Debug" ∨ s = "DEBUG" then .ok .Debug
  else if s = "verbose" ∨ s = "Verbose" ∨ s = "VERBOSE" then .ok .Verbose
  else if s = "info" ∨ s = "Info" ∨ s = "INFO" then .ok .Info
  else if s = "warning" ∨ s = "Warning" ∨ s = "WARNING" then .ok .Warning
  else if s = "error" ∨ s = "Error" ∨ s = "ERROR" then .ok .Error
  else if s = "critical" ∨ s = "Critical" ∨ s = "CRITICAL" then .ok .Critical
  else .error ("Invalid severity: " ++ s)

/-- Embedding of `impl fmt::Display for Severity`: the capitalized name. -/
def Severity.display : Severity → String
  | .Debug => "Debug"
  | .Verbose => "Verbose"
  | .Info => "Info"
  | .Warning => "Warning"
  | .Error => "Error"
  | .Critical => "Critical"

/-- Embedding of `current_time_millis` from `time.rs` (non-wasm build): the raw system clock
is modelled as a signed offset from the Unix epoch in milliseconds
(`duration_since(UNIX_EPOCH)` fails exactly when the offset is negative,
and the `Err` arm returns 0); `as_millis() as u64` truncates mod `2 ^ 64`. -/
def current_time_millis (sysTime : Int) : Nat :=
  if 0 ≤ sysTime then sysTime.toNat % 2 ^ 64 else 0

/-- Embedding of `struct LogEntry` from `logging.rs`. -/
structure LogEntry where
  timestamp : Nat
  severity : Severity
  text : String
  category : Option String
  class_name : Option String
  method_name : Option String
  thread_id : Option String
  deriving DecidableEq, Repr

/-- Embedding of `impl Default for LogEntry`: timestamp from the clock, severity `Debug`,
empty text, all optional fields `None`.  The clock reading is passed in. -/
def LogEntry.default (sysTime : Int) : LogEntry :=
  { timestamp := current_time_millis sysTime
    severity := Severity.Debug
    text := ""
    category := none
    class_name := none
    method_name := none
    thread_id := none }

/-- Embedding of `struct LogQueue`: a vector of entries. -/
structure LogQueue where
  entries : List LogEntry
  deriving DecidableEq, Repr

/-- Embedding of `LogQueue::new` / `Default`: empty queue. -/
def LogQueue.new : LogQueue := ⟨[]⟩

/-- Embedding of `LogQueue::log`: pushes an entry at the end. -/
def LogQueue.log (q : LogQueue) (e : LogEntry) : LogQueue :=
  ⟨q.entries ++ [e]⟩

/-- Embedding of `LogQueue::take`: returns all queued items and empties the queue
(functional rendering: the result pairs the drained entries with the
post-state). -/
def LogQueue.take (q : LogQueue) : List LogEntry × LogQueue :=
  (q.entries, ⟨[]⟩)

/-- Embedding of `LogQueue::is_empty`. -/
def LogQueue.is_empty (q : LogQueue) : Bool :=
  q.entries.isEmpty

/-- Embedding of `LogQueue::clear`. -/
def LogQueue.clear (_q : LogQueue) : LogQueue := ⟨[]⟩

/-- Appending a whole list of entries one at a time via `LogQueue::log`. -/
def LogQueue.appendAll (q : LogQueue) (es : List LogEntry) : LogQueue :=
  es.foldl LogQueue.log q

/-- An HTTP response as seen by `check_status`: a status code (u16) and the
body text; `none` models a body that could not be read
(`resp.text().await` failed, `unwrap_or_default` yields `""`). -/
structure HttpResponse where
  status : Nat
  body : Option String
  deriving DecidableEq, Repr

/-- Embedding of `check_status` from `logging.rs`: 2xx is success, anything else is an
error whose message is `"Logging Error: status:<code> <body>"` with the body
read best-effort (empty string when unreadable). -/
def check_status (resp : HttpResponse) : Except String Unit :=
  if 200 ≤ resp.status ∧ resp.status < 300 then .ok ()
  else .error ("Logging Error: status:" ++ toString resp.status ++ " " ++ resp.body.getD "")

/-- Embedding of `struct CxLogMsg`: the Coralogix batch envelope. -/
structure CxLogMsg where
  private_key : String
  application_name : String
  subsystem_name : String
  log_entries : List LogEntry
  deriving DecidableEq, Repr

/-- Embedding of `CoralogixLogger::send`.  The HTTP client is modelled as a `transport`
function from (endpoint, envelope) to either a transport error or a response.
The second component of the result counts the POST requests performed
(0 or 1), so "no network I/O" is expressible.  Error messages pass through
`CxErr` whose `Display` is the message itself, so they are preserved. -/
def coralogixSend (api_key application_name endpoint : String)
    (transport : String → CxLogMsg → Except String HttpResponse)
    (sub : String) (entries : List LogEntry) : Except String Unit × Nat :=
  if entries.isEmpty then (.ok (), 0)
  else
    let msg : CxLogMsg :=
      { subsystem_name := sub
        log_entries := entries
        private_key := api_key
        application_name := application_name }
    match transport endpoint msg with
    | .error e => (.error e, 1)
    | .ok resp =>
        match check_status resp with
        | .ok _ => (.ok (), 1)
        | .error m => (.error m, 1)

/-- The line `ConsoleLogger::send` prints for one entry:
`println!("{} {} {} {}", e.timestamp, sub, e.severity, e.text)`. -/
def consoleLine (sub : String) (e : LogEntry) : String :=
  toString e.timestamp ++ " " ++ sub ++ " " ++ e.severity.display ++ " " ++ e.text

/-- The loop body of `ConsoleLogger::send`: one output line per entry,
in order. -/
def consoleLines (sub : String) : List LogEntry → List String
  | [] => []
  | e :: rest => consoleLine sub e :: consoleLines sub rest

/-- Embedding of `ConsoleLogger::send` (non-wasm build): prints each entry and returns
`Ok(())`.  The result pairs the outcome with the lines written to stdout. -/
def consoleSend (sub : String) (entries : List LogEntry) :
    Except String Unit × List String :=
  (.ok (), consoleLines sub entries)

/-- Predicate: `m` occurs inside `s` as a contiguous substring. -/
def containsStr (s m : String) : Prop :=
  ∃ pre post, s = pre ++ m ++ post

/-- A value passed to the `log!` macro: anything implementing `ToString`.
Strings and unsigned integers cover the uses in the crate's doc examples. -/
inductive Value where
  | vStr (s : String)
  | vNat (n : Nat)
  deriving DecidableEq, Repr

/-- Embedding of `$v.to_string()`: `Display` of a `&str` is itself, of an integer its
decimal digits. -/
def Value.toString : Value → String
  | .vStr s => s
  | .vNat n => ToString.toString n

/-- Lexicographic order on character lists (by code point, which coincides
with the byte order `BTreeMap<String, _>` uses, since UTF-8 byte order
equals code-point order). -/
def charsLt : List Char → List Char → Bool
  | [], [] => false
  | [], _ :: _ => true
  | _ :: _, [] => false
  | a :: as, b :: bs => if a < b then true else if b < a then false else charsLt as bs

/-- The key order of `BTreeMap<String, String>`. -/
def strLt (a b : String) : Bool := charsLt a.data b.data

/-- Embedding of `BTreeMap::insert` on a map represented as an association list sorted
by `strLt`: an equal key replaces the stored value. -/
def insertSorted (k v : String) : List (String × String) → List (String × String)
  | [] => [(k, v)]
  | (k0, v0) :: rest =>
    if strLt k k0 then (k, v) :: (k0, v0) :: rest
    else if k = k0 then (k, v) :: rest
    else (k0, v0) :: insertSorted k v rest

/-- Lookup in an association list (the mapping a `BTreeMap` represents). -/
def alookup (k : String) : List (String × String) → Option String
  | [] => none
  | (k0, v0) :: rest => if k = k0 then some v0 else alookup k rest

/-- Keys of a map are strictly sorted in `strLt` order (the invariant of the
`BTreeMap` representation). -/
def SortedKeys (m : List (String × String)) : Prop :=
  List.Pairwise (fun a b : String × String => strLt a.1 b.1 = true) m

/-- One hex digit, lowercase, as used by `serde_json` in `\u00XX` escapes. -/
def hexDigit (n : Nat) : Char :=
  if n < 10 then Char.ofNat (48 + n) else Char.ofNat (87 + n)

/-- Embedding of `serde_json`'s escaping of one character inside a JSON string literal. -/
def escapeChar (c : Char) : String :=
  if c = '"' then "\\\""
  else if c = '\\' then "\\\\"
  else if c.toNat = 8 then "\\b"
  else if c.toNat = 12 then "\\f"
  else if c = '\n' then "\\n"
  else if c = '\r' then "\\r"
  else if c = '\t' then "\\t"
  else if c.toNat < 32 then
    "\\u00" ++ String.mk [hexDigit (c.toNat / 16), hexDigit (c.toNat % 16)]
  else String.mk [c]

/-- Embedding of `serde_json` encoding of a string (quotes plus escaped content). -/
def encodeJsonStr (s : String) : String :=
  "\"" ++ String.join (s.data.map escapeChar) ++ "\""

/-- Embedding of `serde_json::to_string` of a `BTreeMap<String, String>` represented as a
sorted association list: `\x7b"k":"v",...\x7d` in stored (= key-sorted)
order.  For a map of strings this serialization cannot fail, so the
macro's `Err` fallback arm is unreachable and the encoder is total. -/
def encodeMap (m : List (String × String)) : String :=
  "\x7b" ++ String.intercalate ","
      (m.map (fun kv => encodeJsonStr kv.1 ++ ":" ++ encodeJsonStr kv.2))
    ++ "\x7d"

/-- Whether a key is one of the five reserved (Coralogix) keys the macro
routes to dedicated `LogEntry` fields. -/
def isReserved (k : String) : Bool :=
  k = "text" || k = "category" || k = "class_name" || k = "method_name"
    || k = "thread_id"

/-- The running state of the macro's expansion: the auxiliary `fields` map,
the `has_text` flag and the entry under construction. -/
structure BuildState where
  fields : List (String × String)
  has_text : Bool
  entry : LogEntry
  deriving DecidableEq, Repr

/-- One iteration of the macro's `$( ... )*` body: stringify the value and
classify the key. -/
def classifyPair (st : BuildState) (p : String × Value) : BuildState :=
  let val := p.2.toString
  let key := p.1
  if key = "text" then
    { st with entry := { st.entry with text := val }, has_text := true }
  else if key = "category" then
    { st with entry := { st.entry with category := some val } }
  else if key = "class_name" then
    { st with entry := { st.entry with class_name := some val } }
  else if key = "method_name" then
    { st with entry := { st.entry with method_name := some val } }
  else if key = "thread_id" then
    { st with entry := { st.entry with thread_id := some val } }
  else
    { st with fields := insertSorted key val st.fields }

/-- The macro's starting state: an empty `BTreeMap`, `has_text = false`,
and a default entry with the given severity. -/
def initState (sysTime : Int) (sev : Severity) : BuildState :=
  { fields := []
    has_text := false
    entry := { LogEntry.default sysTime with severity := sev } }

/-- The `log!` macro from `lib.rs`: starts from a default entry with the
given severity and an empty `BTreeMap`, classifies every pair in order,
and, when no `text` pair occurred, sets `text` to the JSON encoding of the
auxiliary map. -/
def buildLogEntry (sysTime : Int) (sev : Severity)
    (pairs : List (String × Value)) : LogEntry :=
  let st := pairs.foldl classifyPair (initState sysTime sev)
  if st.has_text then st.entry
  else { st.entry with text := encodeMap st.fields }

/-- The auxiliary `fields` map the macro accumulates: non-reserved pairs
inserted in order into the sorted map. -/
def buildFields (pairs : List (String × Value)) : List (String × String) :=
  pairs.foldl
    (fun m p => if isReserved p.1 then m else insertSorted p.1 p.2.toString m) []

/-- The value of the LAST pair with key `k`, stringified (`none` when `k`
never occurs). -/
def lastVal (k : String) (pairs : List (String × Value)) : Option String :=
  pairs.foldl (fun acc p => if p.1 = k then some p.2.toString else acc) none

/-- The JSON data model (what `serde_json` can emit): an object is an
ordered list of key/value fields. -/
inductive Json where
  | str (s : String)
  | num (n : Nat)
  | obj (fields : List (String × Json))
  | arr (xs : List Json)
  | null

/-- One optional `LogEntry` field under `skip_serializing_if = "Option::is_none"`:
absent options contribute no field at all. -/
def optField (k : String) (v : Option String) : List (String × Json) :=
  match v with
  | none => []
  | some s => [(k, Json.str s)]

/-- Embedding of the derived serializer (`rename_all = "camelCase"`) on `LogEntry`:
field order follows the struct declaration, keys are camelCased,
severity serializes as its `repr(u8)` integer tag (`Serialize_repr`), and
each `None` optional field is omitted entirely. -/
def logEntryToJson (e : LogEntry) : Json :=
  Json.obj
    ([("timestamp", Json.num e.timestamp),
      ("severity", Json.num e.severity.tag),
      ("text", Json.str e.text)]
      ++ optField "category" e.category
      ++ optField "className" e.class_name
      ++ optField "methodName" e.method_name
      ++ optField "threadId" e.thread_id)

/-- The keys of a serialized JSON object. -/
def objKeys : Json → List String
  | .obj fs => fs.map (fun kv => kv.1)
  | _ => []

/-- The fields of a serialized JSON object. -/
def objFields : Json → List (String × Json)
  | .obj fs => fs
  | _ => []

theorem charsLt_total (a : List Char) :
    ∀ b, charsLt a b = false → a ≠ b → charsLt b a = true := by
  induction a with
  | nil =>
      intro b h hne
      cases b with
      | nil => exact absurd rfl hne
      | cons y ys => simp [charsLt] at h
  | cons x xs ih =>
      intro b h hne
      cases b with
      | nil => rfl
      | cons y ys =>
          simp only [charsLt] at h ⊢
          by_cases hxy : x < y
          · simp [hxy] at h
          · by_cases hyx : y < x
            · simp [hyx]
            · have hxyeq : x = y := le_antisymm (not_lt.mp hyx) (not_lt.mp hxy)
              subst hxyeq
              simp only [lt_irrefl, if_false] at h ⊢
              exact ih ys h (fun he => hne (by rw [he]))

theorem charsLt_trans (a : List Char) :
    ∀ b c, charsLt a b = true → charsLt b c = true → charsLt a c = true := by
  induction a with
  | nil =>
      intro b c h1 h2
      cases b with
      | nil => simp [charsLt] at h1
      | cons y ys =>
          cases c with
          | nil => simp [charsLt] at h2
          | cons z zs => simp [charsLt]
  | cons x xs ih =>
      intro b c h1 h2
      cases b with
      | nil => simp [charsLt] at h1
      | cons y ys =>
          cases c with
          | nil => simp [charsLt] at h2
          | cons z zs =>
              simp only [charsLt] at h1 h2 ⊢
              by_cases hxy : x < y
              · by_cases hyz : y < z
                · simp [lt_trans hxy hyz]
                · by_cases hzy : z < y
                  · simp [hzy] at h2
                    exact absurd h2 hyz
                  · have : y = z := le_antisymm (not_lt.mp hzy) (not_lt.mp hyz)
                    subst this
                    simp [hxy]
              · by_cases hyx : y < x
                · simp [hyx] at h1
                  exact absurd h1 hxy
                · have hxyeq : x = y := le_antisymm (not_lt.mp hyx) (not_lt.mp hxy)
                  subst hxyeq
                  simp only [lt_irrefl, if_false] at h1
                  by_cases hxz : x < z
                  · simp [hxz]
                  · by_cases hzx : z < x
                    · simp [hzx] at h2
                      exact absurd h2 hxz
                    · have : x = z := le_antisymm (not_lt.mp hzx) (not_lt.mp hxz)
                      subst this
                      simp only [lt_irrefl, if_false] at h2 ⊢
                      exact ih ys zs h1 h2

theorem strLt_total (a b : String) (h : strLt a b = false) (hne : a ≠ b) :
    strLt b a = true :=
  charsLt_total a.data b.data h (fun he => hne (String.ext he))

theorem strLt_trans (a b c : String) (h1 : strLt a b = true)
    (h2 : strLt b c = true) : strLt a c = true :=
  charsLt_trans a.data b.data c.data h1 h2

theorem mem_insertSorted (k v : String) (m : List (String × String)) :
    ∀ x ∈ insertSorted k v m, x.1 = k ∨ x ∈ m := by
  induction m with
  | nil =>
      intro x hx
      rw [insertSorted, List.mem_singleton] at hx
      subst hx
      exact Or.inl rfl
  | cons p rest ih =>
      intro x hx
      obtain ⟨k0, v0⟩ := p
      simp only [insertSorted] at hx
      split at hx
      · rw [List.mem_cons] at hx
        rcases hx with rfl | hx
        · exact Or.inl rfl
        · exact Or.inr hx
      · split at hx
        · rw [List.mem_cons] at hx
          rcases hx with rfl | hx
          · exact Or.inl rfl
          · exact Or.inr (List.mem_cons_of_mem _ hx)
        · rw [List.mem_cons] at hx
          rcases hx with rfl | hx
          · exact Or.inr (List.mem_cons_self _ _)
          · rcases ih x hx with h | h
            · exact Or.inl h
            · exact Or.inr (List.mem_cons_of_mem _ h)

theorem sortedKeys_insertSorted (k v : String) (m : List (String × String))
    (hs : SortedKeys m) : SortedKeys (insertSorted k v m) := by
  induction m with
  | nil => simp [insertSorted, SortedKeys]
  | cons p rest ih =>
      obtain ⟨k0, v0⟩ := p
      rw [SortedKeys, List.pairwise_cons] at hs
      obtain ⟨h0, hrest⟩ := hs
      simp only [insertSorted]
      split
      · rename_i hlt
        rw [SortedKeys, List.pairwise_cons]
        refine ⟨?_, List.Pairwise.cons h0 hrest⟩
        intro y hy
        rw [List.mem_cons] at hy
        rcases hy with rfl | hy
        · exact hlt
        · exact strLt_trans _ _ _ hlt (h0 y hy)
      · split
        · rename_i hne heq
          subst heq
          rw [SortedKeys, List.pairwise_cons]
          exact ⟨h0, hrest⟩
        · rename_i hnlt hne
          rw [SortedKeys, List.pairwise_cons]
          refine ⟨?_, ih hrest⟩
          intro y hy
          rcases mem_insertSorted k v rest y hy with h | h
          · rw [h]
            exact strLt_total k k0 (by simpa using hnlt) hne
          · exact h0 y h

theorem alookup_insertSorted (k1 k v : String) (m : List (String × String)) :
    alookup k1 (insertSorted k v m)
      = if k1 = k then some v else alookup k1 m := by
  induction m with
  | nil => simp [insertSorted, alookup]
  | cons p rest ih =>
      obtain ⟨k0, v0⟩ := p
      simp only [insertSorted]
      split
      · simp [alookup]
      · split
        · rename_i hnlt heq
          by_cases h1 : k1 = k
          · simp [alookup, h1]
          · have h2 : k1 ≠ k0 := fun he => h1 (he.trans heq.symm)
            simp [alookup, h1, h2]
        · rename_i hnlt hne
          by_cases h1 : k1 = k0
          · have hk0k : k0 ≠ k := fun he => hne he.symm
            have hk1k : k1 ≠ k := by
              rw [h1]
              exact hk0k
            simp [alookup, h1, hk1k, hk0k]
          · simp [alookup, h1, ih]

theorem classifyPair_fields (st : BuildState) (p : String × Value) :
    (classifyPair st p).fields
      = if isReserved p.1 then st.fields
        else insertSorted p.1 p.2.toString st.fields := by
  by_cases h1 : p.1 = "text"
  · simp [classifyPair, isReserved, h1]
  · by_cases h2 : p.1 = "category"
    · simp [classifyPair, isReserved, h1, h2]
    · by_cases h3 : p.1 = "class_name"
      · simp [classifyPair, isReserved, h1, h2, h3]
      · by_cases h4 : p.1 = "method_name"
        · simp [classifyPair, isReserved, h1, h2, h3, h4]
        · by_cases h5 : p.1 = "thread_id"
          · simp [classifyPair, isReserved, h1, h2, h3, h4, h5]
          · simp [classifyPair, isReserved, h1, h2, h3, h4, h5]

theorem classifyPair_has_text (st : BuildState) (p : String × Value) :
    (classifyPair st p).has_text
      = if p.1 = "text" then true else st.has_text := by
  by_cases h1 : p.1 = "text"
  · simp [classifyPair, h1]
  · by_cases h2 : p.1 = "category"
    · simp [classifyPair, h1, h2]
    · by_cases h3 : p.1 = "class_name"
      · simp [classifyPair, h1, h2, h3]
      · by_cases h4 : p.1 = "method_name"
        · simp [classifyPair, h1, h2, h3, h4]
        · by_cases h5 : p.1 = "thread_id"
          · simp [classifyPair, h1, h2, h3, h4, h5]
          · simp [classifyPair, h1, h2, h3, h4, h5]

theorem classifyPair_entry_text (st : BuildState) (p : String × Value)
    (h1 : p.1 ≠ "text") :
    (classifyPair st p).entry.text = st.entry.text := by
  by_cases h2 : p.1 = "category"
  · simp [classifyPair, h1, h2]
  · by_cases h3 : p.1 = "class_name"
    · simp [classifyPair, h1, h2, h3]
    · by_cases h4 : p.1 = "method_name"
      · simp [classifyPair, h1, h2, h3, h4]
      · by_cases h5 : p.1 = "thread_id"
        · simp [classifyPair, h1, h2, h3, h4, h5]
        · simp [classifyPair, h1, h2, h3, h4, h5]

theorem classifyPair_entry_congr (st1 st2 : BuildState) (p : String × Value)
    (he : st1.entry = st2.entry) :
    (classifyPair st1 p).entry = (classifyPair st2 p).entry := by
  by_cases h1 : p.1 = "text"
  · simp [classifyPair, h1, he]
  · by_cases h2 : p.1 = "category"
    · simp [classifyPair, h1, h2, he]
    · by_cases h3 : p.1 = "class_name"
      · simp [classifyPair, h1, h2, h3, he]
      · by_cases h4 : p.1 = "method_name"
        · simp [classifyPair, h1, h2, h3, h4, he]
        · by_cases h5 : p.1 = "thread_id"
          · simp [classifyPair, h1, h2, h3, h4, h5, he]
          · simp [classifyPair, h1, h2, h3, h4, h5, he]

theorem classifyPair_nonreserved (st : BuildState) (p : String × Value)
    (h : isReserved p.1 = false) :
    (classifyPair st p).entry = st.entry
    ∧ (classifyPair st p).has_text = st.has_text := by
  simp only [isReserved, Bool.or_eq_false_iff, decide_eq_false_iff_not] at h
  obtain ⟨⟨⟨⟨h1, h2⟩, h3⟩, h4⟩, h5⟩ := h
  exact ⟨by simp [classifyPair, h1, h2, h3, h4, h5],
    by simp [classifyPair, h1, h2, h3, h4, h5]⟩

theorem foldl_entry_congr (pairs : List (String × Value)) :
    ∀ st1 st2 : BuildState, st1.entry = st2.entry →
      st1.has_text = st2.has_text →
      (pairs.foldl classifyPair st1).entry
          = (pairs.foldl classifyPair st2).entry
      ∧ (pairs.foldl classifyPair st1).has_text
          = (pairs.foldl classifyPair st2).has_text := by
  induction pairs with
  | nil => exact fun st1 st2 he ht => ⟨he, ht⟩
  | cons p rest ih =>
      intro st1 st2 he ht
      simp only [List.foldl_cons]
      refine ih _ _ (classifyPair_entry_congr st1 st2 p he) ?_
      rw [classifyPair_has_text, classifyPair_has_text, ht]

theorem foldl_filter_reserved (pairs : List (String × Value)) :
    ∀ st : BuildState,
      ((pairs.filter (fun p => isReserved p.1)).foldl classifyPair st).entry
          = (pairs.foldl classifyPair st).entry
      ∧ ((pairs.filter (fun p => isReserved p.1)).foldl classifyPair st).has_text
          = (pairs.foldl classifyPair st).has_text := by
  induction pairs with
  | nil => exact fun st => ⟨rfl, rfl⟩
  | cons p rest ih =>
      intro st
      by_cases h : isReserved p.1 = true
      · rw [List.filter_cons, if_pos h]
        simp only [List.foldl_cons]
        exact ih (classifyPair st p)
      · rw [List.filter_cons, if_neg h]
        simp only [List.foldl_cons]
        have hnr := classifyPair_nonreserved st p (by simpa using h)
        have hc := foldl_entry_congr rest st (classifyPair st p)
          hnr.1.symm hnr.2.symm
        exact ⟨(ih st).1.trans hc.1, (ih st).2.trans hc.2⟩

theorem foldl_has_text (pairs : List (String × Value)) :
    ∀ st : BuildState,
      ((pairs.foldl classifyPair st).has_text = true
        ↔ st.has_text = true ∨ ∃ p ∈ pairs, p.1 = "text") := by
  induction pairs with
  | nil => intro st; simp
  | cons p rest ih =>
      intro st
      rw [List.foldl_cons, ih, classifyPair_has_text]
      by_cases h : p.1 = "text"
      · simp [h]
      · simp [h]

theorem foldl_fields (pairs : List (String × Value)) :
    ∀ st : BuildState,
      (pairs.foldl classifyPair st).fields
        = pairs.foldl
            (fun m p => if isReserved p.1 then m
             else insertSorted p.1 p.2.toString m)
            st.fields := by
  induction pairs with
  | nil => exact fun st => rfl
  | cons p rest ih =>
      intro st
      simp only [List.foldl_cons]
      rw [ih, classifyPair_fields]

theorem lastVal_acc (k : String) (pairs : List (String × Value)) :
    ∀ acc : Option String,
      pairs.foldl (fun a p => if p.1 = k then some p.2.toString else a) acc
        = (lastVal k pairs).or acc := by
  induction pairs with
  | nil => intro acc; simp [lastVal, Option.or]
  | cons p rest ih =>
      intro acc
      rw [List.foldl_cons, ih]
      conv_rhs => rw [lastVal, List.foldl_cons, ih]
      rcases hl : lastVal k rest with _ | v
      · by_cases h : p.1 = k
        · simp [h, Option.or]
        · simp [h, Option.or]
      · simp [Option.or]

theorem lastVal_eq_none (k : String) :
    ∀ pairs : List (String × Value),
      (∀ p ∈ pairs, p.1 ≠ k) → lastVal k pairs = none := by
  intro pairs
  induction pairs with
  | nil => intro _; rfl
  | cons p rest ih =>
      intro h
      rw [lastVal, List.foldl_cons, lastVal_acc,
        ih (fun q hq => h q (List.mem_cons_of_mem _ hq))]
      simp [Option.or, h p (List.mem_cons_self _ _)]

theorem foldl_entry_text (pairs : List (String × Value)) :
    ∀ st : BuildState,
      (pairs.foldl classifyPair st).entry.text
        = (lastVal "text" pairs).getD st.entry.text := by
  induction pairs with
  | nil => intro st; simp [lastVal]
  | cons p rest ih =>
      intro st
      rw [List.foldl_cons, ih]
      conv_rhs => rw [lastVal, List.foldl_cons, lastVal_acc]
      by_cases h : p.1 = "text"
      · have hct : (classifyPair st p).entry.text = p.2.toString := by
          simp [classifyPair, h]
        rw [hct]
        rcases hl : lastVal "text" rest with _ | v
        · simp [h, Option.or]
        · simp [Option.or]
      · rw [classifyPair_entry_text st p h]
        rcases hl : lastVal "text" rest with _ | v
        · simp [h, Option.or]
        · simp [Option.or]

theorem sortedKeys_foldl (pairs : List (String × Value)) :
    ∀ m, SortedKeys m →
      SortedKeys (pairs.foldl
        (fun m p => if isReserved p.1 then m
         else insertSorted p.1 p.2.toString m) m) := by
  induction pairs with
  | nil => exact fun m hm => hm
  | cons p rest ih =>
      intro m hm
      simp only [List.foldl_cons]
      by_cases h : isReserved p.1 = true
      · rw [if_pos h]
        exact ih m hm
      · rw [if_neg h]
        exact ih _ (sortedKeys_insertSorted _ _ _ hm)

theorem alookup_foldl (k : String) (hk : isReserved k = false)
    (pairs : List (String × Value)) :
    ∀ m, alookup k (pairs.foldl
        (fun m p => if isReserved p.1 then m
         else insertSorted p.1 p.2.toString m) m)
      = (lastVal k pairs).or (alookup k m) := by
  induction pairs with
  | nil => intro m; simp [lastVal, Option.or]
  | cons p rest ih =>
      intro m
      simp only [List.foldl_cons]
      conv_rhs => rw [lastVal, List.foldl_cons, lastVal_acc]
      by_cases h : isReserved p.1 = true
      · have hpk : ¬(p.1 = k) := by
          intro he
          rw [he, hk] at h
          exact Bool.false_ne_true h
        rw [if_pos h, ih]
        rcases hl : lastVal k rest with _ | v
        · simp [hpk, Option.or]
        · simp [Option.or]
      · rw [if_neg h, ih, alookup_insertSorted]
        by_cases hpk : p.1 = k
        · rw [if_pos hpk.symm, if_pos hpk]
          rcases hl : lastVal k rest with _ | v
          · simp [Option.or]
          · simp [Option.or]
        · rw [if_neg (fun he => hpk he.symm), if_neg hpk]
          rcases hl : lastVal k rest with _ | v
          · simp [Option.or]
          · simp [Option.or]

theorem appendAll_entries (q : LogQueue) (es : List LogEntry) :
    (q.appendAll es).entries = q.entries ++ es := by
  induction es generalizing q with
  | nil => simp [LogQueue.appendAll]
  | cons e rest ih =>
      simp [LogQueue.appendAll, List.foldl_cons] at *
      rw [ih]
      simp [LogQueue.log]

/-- Claim C4: entries appended to a `LogQueue` are returned by `take` in
append order ([A, B], never [B, A] for distinct A, B), and the queue is
empty immediately after `take`. -/
theorem c4_logqueue_take_order (es : List LogEntry) (A B : LogEntry) :
    (LogQueue.new.appendAll es).take.1 = es
    ∧ (LogQueue.new.appendAll es).take.2.is_empty = true
    ∧ ((LogQueue.new.log A).log B).take.1 = [A, B]
    ∧ (A ≠ B → ((LogQueue.new.log A).log B).take.1 ≠ [B, A]) := by
  refine ⟨?_, ?_, ?_, ?_⟩
  · rw [LogQueue.take, appendAll_entries]
    simp [LogQueue.new]
  · simp [LogQueue.take, LogQueue.is_empty]
  · simp [LogQueue.new, LogQueue.log, LogQueue.take]
  · intro hne h
    simp [LogQueue.new, LogQueue.log, LogQueue.take] at h
    exact hne h.1

/-- Witness for C4 at concrete inputs: appending two distinct concrete
entries and draining. -/
theorem c4_logqueue_take_order_witness :
    (LogQueue.new.appendAll [LogEntry.default 0, LogEntry.default 1]).take.1
        = [LogEntry.default 0, LogEntry.default 1]
    ∧ ((LogQueue.new.log (LogEntry.default 0)).log (LogEntry.default 1)).take.1
        ≠ [LogEntry.default 1, LogEntry.default 0] := by
  have h := c4_logqueue_take_order [LogEntry.default 0, LogEntry.default 1]
    (LogEntry.default 0) (LogEntry.default 1)
  exact ⟨h.1, h.2.2.2 (by decide)⟩

/-- Claim C9: a `LogEntry` built without an explicit severity defaults to
`Debug`, while `Severity`'s own default is `Info`; the two are distinct. -/
theorem c9_distinct_defaults (sysTime : Int) :
    (LogEntry.default sysTime).severity = Severity.Debug
    ∧ Severity.default = Severity.Info
    ∧ Severity.Debug ≠ Severity.Info := by
  exact ⟨rfl, rfl, by decide⟩

/-- Claim C10: `current_time_millis` is total, returns 0 for a clock before
the epoch, otherwise the clock offset truncated to u64, and
`LogEntry::default` always obtains its timestamp from it. -/
theorem c10_time_total (t : Int) :
    (t < 0 → current_time_millis t = 0)
    ∧ (0 ≤ t → current_time_millis t = t.toNat % 2 ^ 64)
    ∧ (LogEntry.default t).timestamp = current_time_millis t := by
  refine ⟨fun h => ?_, fun h => ?_, rfl⟩
  · simp [current_time_millis, not_le.mpr h]
  · simp [current_time_millis, h]

/-- Witness for C10: concrete clock readings before and after the epoch. -/
theorem c10_time_total_witness :
    current_time_millis (-7) = 0
    ∧ current_time_millis 5 = (5 : Int).toNat % 2 ^ 64
    ∧ (LogEntry.default (-7)).timestamp = current_time_millis (-7) := by
  exact ⟨(c10_time_total (-7)).1 (by decide), (c10_time_total 5).2.1 (by decide),
    (c10_time_total (-7)).2.2⟩

/-- Claim C3: for both Logger implementations, `send` with an empty entry
list succeeds, performs no network request and writes no output. -/
theorem c3_empty_send_noop :
    (∀ api app endpoint transport sub,
      coralogixSend api app endpoint transport sub [] = (.ok (), 0))
    ∧ (∀ sub, consoleSend sub [] = (.ok (), [])) := by
  constructor
  · intro api app endpoint transport sub
    simp [coralogixSend]
  · intro sub
    rfl

/-- The 18 literal spellings accepted by `Severity::from_str`, paired with the
severity each one parses to (three casings of each of the six names). -/
def severityLiterals : List (String × Severity) :=
  [("debug", .Debug), ("Debug", .Debug), ("DEBUG", .Debug),
   ("verbose", .Verbose), ("Verbose", .Verbose), ("VERBOSE", .Verbose),
   ("info", .Info), ("Info", .Info), ("INFO", .Info),
   ("warning", .Warning), ("Warning", .Warning), ("WARNING", .Warning),
   ("error", .Error), ("Error", .Error), ("ERROR", .Error),
   ("critical", .Critical), ("Critical", .Critical), ("CRITICAL", .Critical)]

/-- Claim C6 counterexample: `"dEBUG"` is a casing variant of `"debug"`
(its characters lowercase to exactly `debug`), yet parsing rejects it, so
severity parsing is not case-insensitive over all casings. -/
theorem c6_counterexample :
    "dEBUG".data.map Char.toLower = "debug".data
    ∧ Severity.from_str "dEBUG" = .error "Invalid severity: dEBUG" := by
  constructor
  · decide
  · rfl

/-- Claim C6 as amended: parsing accepts exactly the 18 literal spellings
(lowercase, Capitalized, UPPERCASE of each of the six names), yielding the
matching severity; every other string fails with
`"Invalid severity: <input>"`, carrying the offending input. -/
theorem c6_amended_parse (s : String) :
    (∀ sev, (s, sev) ∈ severityLiterals → Severity.from_str s = .ok sev)
    ∧ ((∀ sev, (s, sev) ∉ severityLiterals) →
        Severity.from_str s = .error ("Invalid severity: " ++ s)) := by
  constructor
  · intro sev h
    cases sev <;> simp [severityLiterals] at h <;>
      rcases h with rfl | rfl | rfl <;> rfl
  · intro h
    have h01 : s ≠ "debug" := fun he => h .Debug (by rw [he]; simp [severityLiterals])
    have h02 : s ≠ "Debug" := fun he => h .Debug (by rw [he]; simp [severityLiterals])
    have h03 : s ≠ "DEBUG" := fun he => h .Debug (by rw [he]; simp [severityLiterals])
    have h04 : s ≠ "verbose" := fun he => h .Verbose (by rw [he]; simp [severityLiterals])
    have h05 : s ≠ "Verbose" := fun he => h .Verbose (by rw [he]; simp [severityLiterals])
    have h06 : s ≠ "VERBOSE" := fun he => h .Verbose (by rw [he]; simp [severityLiterals])
    have h07 : s ≠ "info" := fun he => h .Info (by rw [he]; simp [severityLiterals])
    have h08 : s ≠ "Info" := fun he => h .Info (by rw [he]; simp [severityLiterals])
    have h09 : s ≠ "INFO" := fun he => h .Info (by rw [he]; simp [severityLiterals])
    have h10 : s ≠ "warning" := fun he => h .Warning (by rw [he]; simp [severityLiterals])
    have h11 : s ≠ "Warning" := fun he => h .Warning (by rw [he]; simp [severityLiterals])
    have h12 : s ≠ "WARNING" := fun he => h .Warning (by rw [he]; simp [severityLiterals])
    have h13 : s ≠ "error" := fun he => h .Error (by rw [he]; simp [severityLiterals])
    have h14 : s ≠ "Error" := fun he => h .Error (by rw [he]; simp [severityLiterals])
    have h15 : s ≠ "ERROR" := fun he => h .Error (by rw [he]; simp [severityLiterals])
    have h16 : s ≠ "critical" := fun he => h .Critical (by rw [he]; simp [severityLiterals])
    have h17 : s ≠ "Critical" := fun he => h .Critical (by rw [he]; simp [severityLiterals])
    have h18 : s ≠ "CRITICAL" := fun he => h .Critical (by rw [he]; simp [severityLiterals])
    simp only [Severity.from_str]
    rw [if_neg (by simp [h01, h02, h03]), if_neg (by simp [h04, h05, h06]),
      if_neg (by simp [h07, h08, h09]), if_neg (by simp [h10, h11, h12]),
      if_neg (by simp [h13, h14, h15]), if_neg (by simp [h16, h17, h18])]

/-- Witness for C6: a literal (any of the 18 spellings) parses to its
severity, and a non-literal string fails carrying the input. -/
theorem c6_amended_parse_witness :
    Severity.from_str "WARNING" = .ok .Warning
    ∧ Severity.from_str "xyz" = .error ("Invalid severity: " ++ "xyz") := by
  exact ⟨(c6_amended_parse "WARNING").1 .Warning (by simp [severityLiterals]),
    (c6_amended_parse "xyz").2 (fun sev => by cases sev <;> decide)⟩

/-- Claim C2: a 2xx response makes `send` succeed; any other status fails
with a message containing both the numeric status code and the response
body text (empty string when the body is unreadable); the outcome of
`CoralogixLogger::send` on a delivered response is exactly the outcome of
`check_status`; status 500 with body "quota exceeded" is the concrete case. -/
theorem c2_http_error_reporting (resp : HttpResponse) :
    (200 ≤ resp.status ∧ resp.status < 300 → check_status resp = .ok ())
    ∧ (¬(200 ≤ resp.status ∧ resp.status < 300) →
        ∃ m, check_status resp = .error m
          ∧ containsStr m (toString resp.status)
          ∧ containsStr m (resp.body.getD ""))
    ∧ (∀ api app endpoint transport sub entries, entries ≠ [] →
        transport endpoint
            { private_key := api, application_name := app,
              subsystem_name := sub, log_entries := entries } = Except.ok resp →
        (coralogixSend api app endpoint transport sub entries).1 = check_status resp)
    ∧ check_status ⟨500, some "quota exceeded"⟩
        = .error "Logging Error: status:500 quota exceeded" := by
  refine ⟨fun h => ?_, fun h => ?_, ?_, rfl⟩
  · simp [check_status, h]
  · refine ⟨"Logging Error: status:" ++ toString resp.status ++ " "
        ++ resp.body.getD "", ?_, ?_, ?_⟩
    · simp [check_status, h]
    · exact ⟨"Logging Error: status:", " " ++ resp.body.getD "",
        by simp [String.append_assoc]⟩
    · exact ⟨"Logging Error: status:" ++ toString resp.status ++ " ", "",
        by rw [String.append_empty]⟩
  · intro api app endpoint transport sub entries hne htr
    cases entries with
    | nil => exact absurd rfl hne
    | cons e es =>
        simp only [coralogixSend, List.isEmpty_cons, Bool.false_eq_true,
          if_false, htr]
        rcases hcs : check_status resp with m | u
        · simp [hcs]
        · simp [hcs]

/-- Witness for C2: a 204 response succeeds; a 500 response with body
"quota exceeded" yields an error containing "500" and the body; a concrete
transport delivering that response makes `send` fail the same way. -/
theorem c2_http_error_reporting_witness :
    check_status ⟨204, none⟩ = .ok ()
    ∧ (∃ m, check_status ⟨500, some "quota exceeded"⟩ = .error m
        ∧ containsStr m (toString (500 : Nat))
        ∧ containsStr m ((some "quota exceeded").getD ""))
    ∧ (coralogixSend "k" "a" "e" (fun _ _ => .ok ⟨500, some "quota exceeded"⟩)
        "sub" [LogEntry.default 0]).1 = check_status ⟨500, some "quota exceeded"⟩ := by
  refine ⟨(c2_http_error_reporting ⟨204, none⟩).1 (by decide),
    (c2_http_error_reporting ⟨500, some "quota exceeded"⟩).2.1 (by decide),
    (c2_http_error_reporting ⟨500, some "quota exceeded"⟩).2.2.1
      "k" "a" "e" _ "sub" _ (by simp) rfl⟩

theorem consoleLines_eq_map (sub : String) (es : List LogEntry) :
    consoleLines sub es = es.map (consoleLine sub) := by
  induction es with
  | nil => rfl
  | cons e rest ih => simp [consoleLines, ih]

/-- Claim C8: for every sub-channel and non-empty entry list, the console
logger writes exactly one line per entry, in order, of the form
`<timestampMillis> <sub> <severityName> <text>`, and returns success. -/
theorem c8_console_output (sub : String) (entries : List LogEntry)
    (_h : entries ≠ []) :
    (consoleSend sub entries).1 = .ok ()
    ∧ (consoleSend sub entries).2
        = entries.map (fun e =>
            toString e.timestamp ++ " " ++ sub ++ " " ++ e.severity.display
              ++ " " ++ e.text)
    ∧ (consoleSend sub entries).2.length = entries.length := by
  refine ⟨rfl, ?_, ?_⟩
  · simp [consoleSend, consoleLines_eq_map, consoleLine]
  · simp [consoleSend, consoleLines_eq_map]

/-- Witness for C8: one concrete entry on sub-channel "tester". -/
theorem c8_console_output_witness :
    (consoleSend "tester" [LogEntry.default 0]).1 = .ok ()
    ∧ (consoleSend "tester" [LogEntry.default 0]).2
        = [LogEntry.default 0].map (fun e =>
            toString e.timestamp ++ " " ++ "tester" ++ " " ++ e.severity.display
              ++ " " ++ e.text) := by
  have h := c8_console_output "tester" [LogEntry.default 0] (by simp)
  exact ⟨h.1, h.2.1⟩

/-- Claim C1: for every severity and pair list with no "text" key, the
classifier sets `text` to the JSON object encoding of the auxiliary map,
whose keys are strictly sorted and whose mapping sends each non-reserved
key to the stringified value of its LAST occurrence; on input
(Info, [method:"GET", url:"https://example.com", status:200]) the text is
exactly the sorted, stringified JSON object. -/
theorem c1_classifier_sorted_json (sysTime : Int) (sev : Severity)
    (pairs : List (String × Value)) (hno : ∀ p ∈ pairs, p.1 ≠ "text") :
    (buildLogEntry sysTime sev pairs).text = encodeMap (buildFields pairs)
    ∧ SortedKeys (buildFields pairs)
    ∧ (∀ k, isReserved k = false →
        alookup k (buildFields pairs) = lastVal k pairs)
    ∧ (buildLogEntry 0 .Info
        [("method", .vStr "GET"), ("url", .vStr "https://example.com"),
         ("status", .vNat 200)]).text
      = "\x7b\"method\":\"GET\",\"status\":\"200\",\"url\":\"https://example.com\"\x7d" := by
  refine ⟨?_, ?_, ?_, by decide⟩
  · have hnt : ¬((pairs.foldl classifyPair (initState sysTime sev)).has_text
        = true) := by
      rw [foldl_has_text]
      rintro (hf | ⟨p, hp, hpt⟩)
      · exact Bool.false_ne_true hf
      · exact hno p hp hpt
    have hht : (pairs.foldl classifyPair (initState sysTime sev)).has_text
        = false := by
      cases hb : (pairs.foldl classifyPair (initState sysTime sev)).has_text
      · rfl
      · exact absurd hb hnt
    simp only [buildLogEntry]
    rw [if_neg (by rw [hht]; exact Bool.false_ne_true)]
    have hf := foldl_fields pairs (initState sysTime sev)
    rw [show (initState sysTime sev).fields = [] from rfl] at hf
    rw [show (buildFields pairs)
        = pairs.foldl (fun m p => if isReserved p.1 then m
            else insertSorted p.1 p.2.toString m) [] from rfl]
    rw [← hf]
  · exact sortedKeys_foldl pairs [] List.Pairwise.nil
  · intro k hk
    have := alookup_foldl k hk pairs []
    rw [show (buildFields pairs)
        = pairs.foldl (fun m p => if isReserved p.1 then m
            else insertSorted p.1 p.2.toString m) [] from rfl, this]
    rcases hl : lastVal k pairs with _ | v
    · simp [alookup, Option.or]
    · simp [alookup, Option.or]

/-- Witness for C1: the concrete three-pair input from the spec, with no
"text" key, evaluated through the classifier. -/
theorem c1_classifier_sorted_json_witness :
    (buildLogEntry 0 .Info
      [("method", .vStr "GET"), ("url", .vStr "https://example.com"),
       ("status", .vNat 200)]).text
      = "\x7b\"method\":\"GET\",\"status\":\"200\",\"url\":\"https://example.com\"\x7d"
    ∧ SortedKeys (buildFields
        [("method", .vStr "GET"), ("url", .vStr "https://example.com"),
         ("status", .vNat 200)]) := by
  have h := c1_classifier_sorted_json 0 .Info
    [("method", .vStr "GET"), ("url", .vStr "https://example.com"),
     ("status", .vNat 200)] (by decide)
  exact ⟨h.2.2.2, h.2.1⟩

/-- Claim C5: when a "text" pair is supplied, the entry's `text` is that
value verbatim (the last "text" occurrence), and every non-reserved pair is
silently dropped: the resulting entry equals the entry built from the
reserved pairs alone.  Concretely, text:"custom" with foo:"bar" yields
text "custom" and the same entry as text:"custom" alone. -/
theorem c5_explicit_text_drops_fields (sysTime : Int) (sev : Severity)
    (pairs : List (String × Value)) (v : String)
    (hv : lastVal "text" pairs = some v) :
    (buildLogEntry sysTime sev pairs).text = v
    ∧ buildLogEntry sysTime sev pairs
        = buildLogEntry sysTime sev (pairs.filter (fun p => isReserved p.1))
    ∧ (buildLogEntry 0 .Info
        [("text", .vStr "custom"), ("foo", .vStr "bar")]).text = "custom"
    ∧ buildLogEntry 0 .Info [("text", .vStr "custom"), ("foo", .vStr "bar")]
        = buildLogEntry 0 .Info [("text", .vStr "custom")] := by
  have hex : ∃ p ∈ pairs, p.1 = "text" := by
    by_contra hc
    push_neg at hc
    rw [lastVal_eq_none "text" pairs hc] at hv
    cases hv
  have hht : (pairs.foldl classifyPair (initState sysTime sev)).has_text
      = true := (foldl_has_text pairs (initState sysTime sev)).mpr (Or.inr hex)
  have hfr := foldl_filter_reserved pairs (initState sysTime sev)
  have h2 : buildLogEntry sysTime sev pairs
      = (pairs.foldl classifyPair (initState sysTime sev)).entry := by
    simp only [buildLogEntry]
    rw [if_pos hht]
  have h3 : buildLogEntry sysTime sev (pairs.filter (fun p => isReserved p.1))
      = ((pairs.filter (fun p => isReserved p.1)).foldl classifyPair
          (initState sysTime sev)).entry := by
    simp only [buildLogEntry]
    rw [if_pos (by rw [hfr.2]; exact hht)]
  refine ⟨?_, ?_, by decide, by decide⟩
  · rw [h2, foldl_entry_text, hv]
    rfl
  · rw [h2, h3, hfr.1]

/-- Claim C7: the wire serialization of a `LogEntry` uses only the
camelCase keys timestamp, severity, text, category, className, methodName,
threadId; severity is its integer tag in 1..6; each unset optional field is
omitted entirely (its key is absent); and no field is ever `null`. -/
theorem c7_wire_serialization (e : LogEntry) :
    objKeys (logEntryToJson e)
        ⊆ ["timestamp", "severity", "text", "category", "className",
           "methodName", "threadId"]
    ∧ ("severity", Json.num e.severity.tag) ∈ objFields (logEntryToJson e)
    ∧ (1 ≤ e.severity.tag ∧ e.severity.tag ≤ 6)
    ∧ (e.category = none → "category" ∉ objKeys (logEntryToJson e))
    ∧ (e.class_name = none → "className" ∉ objKeys (logEntryToJson e))
    ∧ (e.method_name = none → "methodName" ∉ objKeys (logEntryToJson e))
    ∧ (e.thread_id = none → "threadId" ∉ objKeys (logEntryToJson e))
    ∧ (∀ kv ∈ objFields (logEntryToJson e), kv.2 ≠ Json.null) := by
  obtain ⟨ts, sev, tx, cat, cls, mth, thr⟩ := e
  refine ⟨?_, ?_, ?_, ?_, ?_, ?_, ?_, ?_⟩
  · cases cat <;> cases cls <;> cases mth <;> cases thr <;>
      simp [logEntryToJson, optField, objKeys, List.subset_def]
  · cases cat <;> cases cls <;> cases mth <;> cases thr <;>
      simp [logEntryToJson, optField, objFields]
  · cases sev <;> simp [Severity.tag]
  · intro h
    cases h
    cases cls <;> cases mth <;> cases thr <;>
      simp [logEntryToJson, optField, objKeys]
  · intro h
    cases h
    cases cat <;> cases mth <;> cases thr <;>
      simp [logEntryToJson, optField, objKeys]
  · intro h
    cases h
    cases cat <;> cases cls <;> cases thr <;>
      simp [logEntryToJson, optField, objKeys]
  · intro h
    cases h
    cases cat <;> cases cls <;> cases mth <;>
      simp [logEntryToJson, optField, objKeys]
  · cases cat <;> cases cls <;> cases mth <;> cases thr <;>
      simp [logEntryToJson, optField, objFields]

/-- Witness for C7: a fully-default entry (all optional fields unset) has
none of the optional keys in its serialization. -/
theorem c7_wire_serialization_witness :
    "category" ∉ objKeys (logEntryToJson (LogEntry.default 0))
    ∧ "className" ∉ objKeys (logEntryToJson (LogEntry.default 0))
    ∧ "methodName" ∉ objKeys (logEntryToJson (LogEntry.default 0))
    ∧ "threadId" ∉ objKeys (logEntryToJson (LogEntry.default 0)) := by
  have h := c7_wire_serialization (LogEntry.default 0)
  exact ⟨h.2.2.2.1 rfl, h.2.2.2.2.1 rfl, h.2.2.2.2.2.1 rfl,
    h.2.2.2.2.2.2.1 rfl⟩

/-- Witness for C5: the concrete input text:"custom", foo:"bar". -/
theorem c5_explicit_text_drops_fields_witness :
    (buildLogEntry 0 .Info
      [("text", .vStr "custom"), ("foo", .vStr "bar")]).text = "custom"
    ∧ buildLogEntry 0 .Info [("text", .vStr "custom"), ("foo", .vStr "bar")]
        = buildLogEntry 0 .Info
            (([("text", .vStr "custom"), ("foo", .vStr "bar")] :
              List (String × Value)).filter (fun p => isReserved p.1)) := by
  have h := c5_explicit_text_drops_fields 0 .Info
    [("text", .vStr "custom"), ("foo", .vStr "bar")] "custom" (by decide)
  exact ⟨h.1, h.2.1⟩

end ServiceLogging
